import Mathlib

/-!
Verification development for the MOD09GA URL-fetching script
(src/mod09ga_urls.py).  The script is shallowly embedded: strings are
lists of characters, network pages are values of a response structure,
and the unbounded `while` pagination loop is run on explicit fuel, with
running out of fuel standing for non-termination within that many
iterations.  All functions are executable structural recursions so that
concrete runs evaluate by kernel reduction.
-/

set_option maxRecDepth 4000

namespace Mod09ga

/-- Strings of the embedded program are lists of characters. -/
abbrev Str := List Char

/-! ## Decimal rendering and parsing of integers -/

/-- Character for a decimal digit value. -/
def digitChar (n : Nat) : Char := Char.ofNat (48 + n)

/-- Fuel-driven decimal rendering; with fuel at least the digit count it
renders the usual decimal numeral (Python `'%s' % n`). -/
def natToStrAux : Nat → Nat → Str
  | 0, _ => []
  | fuel + 1, n => if n < 10 then [digitChar n] else natToStrAux fuel (n / 10) ++ [digitChar (n % 10)]

/-- Decimal rendering of a natural number, as Python `str`/`%s` formatting. -/
def natToStr (n : Nat) : Str := natToStrAux (n + 1) n

/-- Numeric value of a string of decimal digits. -/
def digitsVal (s : Str) : Nat := s.foldl (fun acc c => acc * 10 + (c.toNat - 48)) 0

/-- Strip leading and trailing whitespace, as Python `int()` does before
reading the digits of its argument. -/
def strip (s : Str) : Str :=
  ((s.dropWhile Char.isWhitespace).reverse.dropWhile Char.isWhitespace).reverse

/-- Drop one leading `+` sign, as `int()` tolerates. -/
def dropPlus (t : Str) : Str := if t.head? = some '+' then t.tail else t

/-- Model of Python `int(s)` on the token shapes reachable in this script:
optional surrounding whitespace, an optional `+`, then one or more decimal
digits.  (Tokens here come from splitting on `-`, so a minus sign can never
occur in them.)  `none` models the `ValueError` that `int` raises. -/
def pyInt (s : Str) : Option Nat :=
  let t2 := dropPlus (strip s)
  if t2 ≠ [] ∧ t2.all Char.isDigit = true then some (digitsVal t2) else none

/-! ## Python `str.split` on a non-empty separator -/

/-- Worker for `pySplit`: walks the string, emitting the accumulated
segment (held reversed in `cur`) at each non-overlapping leftmost
occurrence of the separator.  Fuel is at least the string length on every
call from `pySplit`, so the fuel-exhaustion arm is never taken there. -/
def splitGo (sep : Str) : Nat → Str → Str → List Str
  | _, [], cur => [cur.reverse]
  | 0, s, cur => [cur.reverse ++ s]
  | fuel + 1, c :: rest, cur =>
    if sep.isPrefixOf (c :: rest) then
      cur.reverse :: splitGo sep fuel (List.drop (sep.length - 1) rest) []
    else
      splitGo sep fuel rest (c :: cur)

/-- Python `s.split(sep)` for a non-empty separator: split at each
non-overlapping leftmost occurrence, keeping empty segments. -/
def pySplit (sep s : Str) : List Str := splitGo sep s.length s []

/-- The segment of `s` before the first occurrence of `sep` (all of `s`
when `sep` does not occur). -/
def takeUntil (sep : Str) : Str → Str
  | [] => []
  | c :: rest => if sep.isPrefixOf (c :: rest) then [] else c :: takeUntil sep rest

/-- Whether `sep` occurs as a contiguous substring (Python `sep in s`). -/
def containsSeq (sep : Str) : Str → Bool
  | [] => sep.isEmpty
  | c :: rest => sep.isPrefixOf (c :: rest) || containsSeq sep rest

/-! ## Calendar dates (`datetime` values restricted to dates) -/

/-- Gregorian leap-year rule used by Python `datetime`. -/
def isLeap (y : Nat) : Bool := y % 4 == 0 && (y % 100 != 0 || y % 400 == 0)

/-- Length of a month, as validated by `datetime` construction. -/
def daysInMonth (y m : Nat) : Nat :=
  if m == 2 then (if isLeap y then 29 else 28)
  else if m == 4 || m == 6 || m == 9 || m == 11 then 30
  else 31

/-- A calendar date; models the `datetime` values produced by `strptime`
(whose time-of-day part is always midnight here). -/
structure Date where
  year : Nat
  month : Nat
  day : Nat
deriving DecidableEq, Repr

/-- Validity bounds enforced by `datetime(year, month, day)`. -/
def validDate (y m d : Nat) : Bool :=
  decide (1 ≤ y) && decide (y ≤ 9999) && decide (1 ≤ m) && decide (m ≤ 12) &&
    decide (1 ≤ d) && decide (d ≤ daysInMonth y m)

/-- Build a `datetime` date, failing (as construction raises) when out of range. -/
def mkDate (y m d : Nat) : Option Date :=
  if validDate y m d then some ⟨y, m, d⟩ else none

/-- Chronological order on `datetime` values (here dates), which for valid
dates is lexicographic on (year, month, day). -/
def dateLe (a b : Date) : Bool :=
  decide (a.year < b.year) ||
    (decide (a.year = b.year) &&
      (decide (a.month < b.month) ||
        (decide (a.month = b.month) && decide (a.day ≤ b.day))))

/-- Days of the given year strictly before month `m` (months are 1-based). -/
def cumDays (y : Nat) : Nat → Nat
  | 0 => 0
  | m + 1 => if m = 0 then 0 else cumDays y m + daysInMonth y m

/-- Day-of-year of a date, the value of `strftime('%j')` read back as an int. -/
def dayOfYear (d : Date) : Nat := cumDays d.year d.month + d.day

/-- Up to `max` leading decimal digits of `s`, and the rest of `s`. -/
def takeDigits : Nat → Str → (Str × Str)
  | 0, s => ([], s)
  | _ + 1, [] => ([], [])
  | m + 1, c :: r =>
    if c.isDigit then
      let p := takeDigits m r
      (c :: p.1, p.2)
    else ([], c :: r)

/-- Model of `datetime.strptime(s, '%Y%m%d')`: exactly four digits of
year (CPython's `%Y` is compiled to a four-digit pattern), then greedily
up to two digits of month and of day, the whole string consumed, then
`datetime` range validation.  (CPython compiles the format to a
backtracking regex; on zero-padded `YYYYMMDD` input — the only form this
script documents for these arguments — no backtracking occurs and the two
agree; this model accepts a subset of CPython's inputs, with equal values
on the common ones.) -/
def strptimeYmd8 (s : Str) : Option Date :=
  let y := takeDigits 4 s
  if y.1.length = 4 then
    let m := takeDigits 2 y.2
    if m.1 = [] then none else
    let d := takeDigits 2 m.2
    if d.1 = [] then none else
    if d.2 = [] then mkDate (digitsVal y.1) (digitsVal m.1) (digitsVal d.1) else none
  else none

/-- Model of `datetime.strptime(s, '%Y.%m.%d')`: exactly four digits for
`%Y` (CPython's pattern), greedy one-or-two-digit runs for `%m` and `%d`,
separated by literal dots, the whole string consumed, then `datetime`
range validation. -/
def strptimeDotted (s : Str) : Option Date :=
  let y := takeDigits 4 s
  if y.1.length = 4 then
    match y.2 with
    | '.' :: r1 =>
      let m := takeDigits 2 r1
      if m.1 = [] then none else
      match m.2 with
      | '.' :: r2 =>
        let d := takeDigits 2 r2
        if d.1 = [] then none else
        if d.2 = [] then mkDate (digitsVal y.1) (digitsVal m.1) (digitsVal d.1) else none
      | _ => none
    | _ => none
  else none

/-- Two-digit zero-padded rendering, as `strftime('%m')`/`strftime('%d')`. -/
def pad2 (n : Nat) : Str := [digitChar (n / 10 % 10), digitChar (n % 10)]

/-- Four-digit zero-padded rendering of the year (`strftime('%Y')` for the
four-digit years this catalog uses). -/
def pad4 (n : Nat) : Str :=
  [digitChar (n / 1000 % 10), digitChar (n / 100 % 10), digitChar (n / 10 % 10), digitChar (n % 10)]

/-- A date rendered in the `%Y.%m.%d` layout that granule URLs embed.
This is the claim-side construction for the round-trip property; the
script itself only parses this layout. -/
def formatDate (d : Date) : Str := pad4 d.year ++ ('.' :: pad2 d.month) ++ ('.' :: pad2 d.day)

/-! ## The script's functions -/

/-- First marker of `granule_date`: the product-version path segment. -/
def MARKER1 : Str := ("/MOD09GA.005/").data

/-- Second marker of `granule_date`: the product-name-with-date prefix. -/
def MARKER2 : Str := ("/MOD09GA.A").data

/-- Lines 128-139: `url.split('/MOD09GA.005/')[1].split('/MOD09GA.A')[0]`
parsed with `strptime('%Y.%m.%d')`.  `none` models the `IndexError` (first
marker absent) or `ValueError` (date malformed) the source raises. -/
def granule_date (url : Str) : Option Date :=
  match (pySplit MARKER1 url)[1]? with
  | none => none
  | some part1 => strptimeDotted ((pySplit MARKER2 part1).headD [])

/-- Lines 188-196: yield `(url, year, doy)` per URL, the year and
day-of-year read back from `strftime('%Y')` and `strftime('%j')`.  An
unparseable URL raises out of the generator, and Python 2.7's `strftime`
itself raises `ValueError` for any year before 1900 (the interpreter the
script requires); both error paths are modeled by `none`. -/
def give_url_dates : List Str → Option (List (Str × Int × Int))
  | [] => some []
  | u :: us =>
    match granule_date u with
    | none => none
    | some dt =>
      if dt.year < 1900 then none
      else
        match give_url_dates us with
        | none => none
        | some rest => some ((u, ((dt.year : Int)), ((dayOfYear dt : Int))) :: rest)

/-- Lines 198-205: keep the URLs whose (year, doy) lies in both inclusive
ranges, in order. -/
def doy_and_year_filter (hdf_urls : List Str) (min_max_doys min_max_years : Int × Int) :
    Option (List Str) :=
  match give_url_dates hdf_urls with
  | none => none
  | some xs =>
    some ((xs.filter (fun x =>
      decide (min_max_years.1 ≤ x.2.1) && decide (x.2.1 ≤ min_max_years.2) &&
        decide (min_max_doys.1 ≤ x.2.2) && decide (x.2.2 ≤ min_max_doys.2))).map (fun x => x.1))

/-- Python `filter(lambda url: p (granule_date url), urls)`: an URL whose
date fails to parse raises out of `filter`, modeled by `none`. -/
def filterUrls (p : Date → Bool) : List Str → Option (List Str)
  | [] => some []
  | u :: us =>
    match granule_date u with
    | none => none
    | some d =>
      match filterUrls p us with
      | none => none
      | some rest => some (if p d then u :: rest else rest)

/-- Lines 70-100: calendar date-range filter.  No bounds: the input list
unchanged.  Otherwise the present bounds are parsed with
`strptime('%Y%m%d')` (end first when both are given, as in the source) and
the list is filtered by the inclusive window. -/
def date_range_filter (hdf_urls : List Str) (startOpt endOpt : Option Str) :
    Option (List Str) :=
  match startOpt, endOpt with
  | none, none => some hdf_urls
  | none, some e =>
    match strptimeYmd8 e with
    | none => none
    | some ed => filterUrls (fun d => dateLe d ed) hdf_urls
  | some s, none =>
    match strptimeYmd8 s with
    | none => none
    | some sd => filterUrls (fun d => dateLe sd d) hdf_urls
  | some s, some e =>
    match strptimeYmd8 e with
    | none => none
    | some ed =>
      match strptimeYmd8 s with
      | none => none
      | some sd => filterUrls (fun d => dateLe sd d && dateLe d ed) hdf_urls

/-- Lines 179-186: split on `-`; a two-token split gives `(int a, int b)`;
any other token count takes the `ValueError` branch of the unpacking and
falls back to `start = end = split[0]`, then returns `(int start, int end)`.
`none` models the uncaught `ValueError` of `int()` on a non-integer token. -/
def parse_hyphened_range (s : Str) : Option (Int × Int) :=
  match pySplit ['-'] s with
  | [a, b] =>
    match pyInt a with
    | none => none
    | some x =>
      match pyInt b with
      | none => none
      | some y => some (((x : Int)), ((y : Int)))
  | parts =>
    match pyInt (parts.headD []) with
    | none => none
    | some x => some (((x : Int)), ((x : Int)))

/-- Python `'&'.join(parts)`. -/
def joinAmp : List Str → Str
  | [] => []
  | [x] => x
  | x :: xs => x ++ '&' :: joinAmp xs

/-- Lines 155-161: append the HORIZONTALTILENUMBER clause (name, type,
value, in that order) to the query. -/
def set_horizontal_tile (query value : Str) : Str :=
  joinAmp [query, ("attribute[][name]=HORIZONTALTILENUMBER").data,
    ("attribute[][type]=int").data, ("attribute[][value]=").data ++ value]

/-- Lines 163-169: append the VERTICALTILENUMBER clause (name, type,
value, in that order) to the query. -/
def set_vertical_tile (query value : Str) : Str :=
  joinAmp [query, ("attribute[][name]=VERTICALTILENUMBER").data,
    ("attribute[][type]=int").data, ("attribute[][value]=").data ++ value]

/-- Lines 62-68: `tile_id.split('v')[1]` is the vertical component,
`tile_id.split('h')[1].split('v')[0]` the horizontal one; the horizontal
clause is appended before the vertical one.  `none` models the
`IndexError` when a split yields fewer than two pieces. -/
def build_query_string (tile_id query : Str) : Option Str :=
  match (pySplit ['v'] tile_id)[1]? with
  | none => none
  | some vert_tile =>
    match (pySplit ['h'] tile_id)[1]? with
    | none => none
    | some afterH =>
      let horiz_tile := (pySplit ['v'] afterH).headD []
      some (set_vertical_tile (set_horizontal_tile query horiz_tile) vert_tile)

/-- Line 212-213: `re.match(r'h\d{2}v\d{2}', tile) is not None`.
`re.match` anchors at the start of the string only, so any string whose
first six characters have the shape `h##v##` matches, whatever follows. -/
def tileMatches (tile : Str) : Bool :=
  match tile with
  | 'h' :: a :: b :: 'v' :: c :: d :: _ =>
    a.isDigit && b.isDigit && c.isDigit && d.isDigit
  | _ => false

/-- A string that is exactly of the fixed shape `h<2 digits>v<2 digits>`
(six characters, nothing after).  Claim-side notion used to compare with
the prefix-anchored `re.match` gate the code actually has. -/
def isExactTile (tile : Str) : Bool :=
  match tile with
  | ['h', a, b, 'v', c, d] => a.isDigit && b.isDigit && c.isDigit && d.isDigit
  | _ => false

/-- Line 35. -/
def ECHO_GRANULE_BASE_URL : Str :=
  ("https://api.echo.nasa.gov/catalog-rest/echo_catalog/granules.json?").data

/-- Line 39. -/
def QUERY_STRING : Str :=
  ("dataset_id=MODIS/Terra Surface Reflectance Daily L2G Global 1km and 500m SIN Grid V005").data

/-- Line 36. -/
def PAGE_SIZE : Nat := 2000

/-- Lines 212-219 of `__main__`: the query URL the program will start
fetching from, or `none` when the tile gate rejects the input and the
process exits before any network call. -/
def main_fetch_url (tile : Str) : Option Str :=
  if tileMatches tile then
    match build_query_string tile QUERY_STRING with
    | none => none
    | some q => some (ECHO_GRANULE_BASE_URL ++ q)
  else none

/-! ## Page responses and the pagination loop -/

/-- One `{'href': ...}` link object of the response JSON. -/
structure LinkObj where
  href : Str
deriving DecidableEq

/-- One `{'links': [...]}` entry of the response JSON. -/
structure EntryObj where
  links : List LinkObj
deriving DecidableEq

/-- The `request.json()['feed']['entry']` part of a well-shaped page body. -/
structure FeedBody where
  entry : List EntryObj
deriving DecidableEq

/-- The `.hdf` suffix required of download links. -/
def HDF_SUFFIX : Str := (".hdf").data

/-- Lines 141-153: collect, in order, every `href` of every entry's links
that ends with `.hdf`. -/
def parse_hdf_paths (body : FeedBody) : List Str :=
  body.entry.foldl
    (fun hdfs e =>
      e.links.foldl
        (fun acc l => if HDF_SUFFIX.isSuffixOf l.href then acc ++ [l.href] else acc)
        hdfs)
    []

/-- One HTTP response: status code, header mapping, and the parsed JSON
body (for the well-shaped bodies the loop consumes). -/
structure PageResponse where
  status_code : Nat
  headers : Str → Option Str
  body : FeedBody

/-- The pagination-end header the loop inspects. -/
def cursorKey : Str := ("echo-cursor-at-end").data

/-- The header value that means more pages remain. -/
def falseStr : Str := ("false").data

/-- The request URL for one page: `'&'.join([url, page_size_param, page_num_param])`. -/
def paged_url (url : Str) (page_size page : Nat) : Str :=
  joinAmp [url, ("page_size=").data ++ natToStr page_size,
    ("page_num=").data ++ natToStr page]

/-- The diagnostic line printed on a failed page fetch (line 115). -/
def fail_msg (paged : Str) (status : Nat) : Str :=
  ("Unable to fetch ").data ++ paged ++ ("\n Return status code: ").data ++ natToStr status

/-- Loop state: the 1-based page counter and the `all_urls` accumulator of
the source, instrumented with the list of request URLs issued so far
(`trace`) and the diagnostic lines printed so far (`log`). -/
structure FetchState where
  page : Nat
  all_urls : List Str
  trace : List Str
  log : List Str
deriving DecidableEq

/-- Outcome of running the loop on fuel: normal return of `all_urls`, the
`KeyError` of `request.headers['echo-cursor-at-end']` on a successful
response that lacks the header, or fuel exhausted with the loop still
running. -/
inductive FetchResult where
  | ok (urls : List Str) (trace : List Str) (log : List Str)
  | keyError (trace : List Str) (log : List Str)
  | outOfFuel (st : FetchState)
deriving DecidableEq

/-- Lines 102-126, one `while` iteration per unit of fuel: request the
current page; on a non-200 status print the diagnostic and advance the
page counter; on 200 append the extracted links, then continue exactly
when the `echo-cursor-at-end` header equals `'false'`, stop normally on
any other value, and raise `KeyError` when it is absent. -/
def fetch_loop (api : Str → PageResponse) (url : Str) (page_size : Nat) :
    Nat → FetchState → FetchResult
  | 0, st => FetchResult.outOfFuel st
  | fuel + 1, st =>
    let paged := paged_url url page_size st.page
    let resp := api paged
    if resp.status_code ≠ 200 then
      fetch_loop api url page_size fuel
        ⟨st.page + 1, st.all_urls, st.trace ++ [paged], st.log ++ [fail_msg paged resp.status_code]⟩
    else
      let hdfs := parse_hdf_paths resp.body
      match resp.headers cursorKey with
      | none => FetchResult.keyError (st.trace ++ [paged]) st.log
      | some v =>
        if v = falseStr then
          fetch_loop api url page_size fuel
            ⟨st.page + 1, st.all_urls ++ hdfs, st.trace ++ [paged], st.log⟩
        else FetchResult.ok (st.all_urls ++ hdfs) (st.trace ++ [paged]) st.log

/-- `generate_all_download_urls(url)` run on explicit fuel: the loop from
page 1 with an empty accumulator, with the fixed `PAGE_SIZE`. -/
def generate_all_download_urls (api : Str → PageResponse) (url : Str) (fuel : Nat) :
    FetchResult :=
  fetch_loop api url PAGE_SIZE fuel ⟨1, [], [], []⟩

/-- Concatenation of the lists produced per element, preserving order. -/
def concatMap {α β : Type} (f : α → List β) (l : List α) : List β :=
  l.foldr (fun a acc => f a ++ acc) []

/-! ## Machinery: `pySplit`, `takeUntil` and occurrence reasoning -/

theorem isPrefixOf_eq {a b : Str} : a.isPrefixOf b = true ↔ a <+: b :=
  List.isPrefixOf_iff_prefix

theorem cons_isPrefixOf_cons_eq_false {c0 c : Char} (sep w : Str) (h : c0 ≠ c) :
    (c0 :: sep).isPrefixOf (c :: w) = false := by
  show (c0 == c && sep.isPrefixOf w) = false
  rw [beq_eq_false_iff_ne.mpr h, Bool.false_and]

theorem splitGo_nil (sep : Str) (fuel : Nat) (cur : Str) :
    splitGo sep fuel [] cur = [cur.reverse] := by
  cases fuel <;> rfl

theorem splitGo_fuel_inv (sep : Str) :
    ∀ (f g : Nat) (s cur : Str), s.length ≤ f → s.length ≤ g →
      splitGo sep f s cur = splitGo sep g s cur := by
  intro f
  induction f with
  | zero =>
    intro g s cur hf _
    have hs : s = [] := List.eq_nil_of_length_eq_zero (Nat.le_zero.mp hf)
    subst hs
    rw [splitGo_nil, splitGo_nil]
  | succ f ih =>
    intro g s cur hf hg
    cases s with
    | nil => rw [splitGo_nil, splitGo_nil]
    | cons c rest =>
      cases g with
      | zero => simp at hg
      | succ g2 =>
        show splitGo sep (f + 1) (c :: rest) cur = splitGo sep (g2 + 1) (c :: rest) cur
        simp only [splitGo]
        have hrf : rest.length ≤ f := by simp at hf; omega
        have hrg : rest.length ≤ g2 := by simp at hg; omega
        by_cases hp : sep.isPrefixOf (c :: rest) = true
        · rw [if_pos hp, if_pos hp]
          have hlen : (List.drop (sep.length - 1) rest).length ≤ rest.length := by
            rw [List.length_drop]; omega
          rw [ih g2 _ [] (le_trans hlen hrf) (le_trans hlen hrg)]
        · rw [if_neg (by simp [hp]), if_neg (by simp [hp])]
          exact ih g2 rest (c :: cur) hrf hrg

theorem splitGo_head (sep : Str) :
    ∀ (fuel : Nat) (s cur : Str), s.length ≤ fuel →
      (splitGo sep fuel s cur).head? = some (cur.reverse ++ takeUntil sep s) := by
  intro fuel
  induction fuel with
  | zero =>
    intro s cur h
    have hs : s = [] := List.eq_nil_of_length_eq_zero (Nat.le_zero.mp h)
    subst hs
    rw [splitGo_nil]
    simp [takeUntil]
  | succ f ih =>
    intro s cur h
    cases s with
    | nil => rw [splitGo_nil]; simp [takeUntil]
    | cons c rest =>
      simp only [splitGo, takeUntil]
      by_cases hp : sep.isPrefixOf (c :: rest) = true
      · rw [if_pos hp, if_pos hp]; simp
      · rw [if_neg (by simp [hp]), if_neg (by simp [hp])]
        rw [ih rest (c :: cur) (by simp at h; omega)]
        simp

theorem pySplit_head (sep s : Str) : (pySplit sep s).head? = some (takeUntil sep s) := by
  unfold pySplit
  rw [splitGo_head sep s.length s [] le_rfl]
  simp

theorem pySplit_headD (sep s : Str) : (pySplit sep s).headD [] = takeUntil sep s := by
  have h := pySplit_head sep s
  cases hq : pySplit sep s with
  | nil => rw [hq] at h; cases h
  | cons a t => rw [hq] at h; simp at h; simp [h]

theorem containsSeq_of_isPrefixOf {sep z : Str} (h : sep.isPrefixOf z = true) :
    containsSeq sep z = true := by
  cases z with
  | nil =>
    cases sep with
    | nil => rfl
    | cons a t => simp [List.isPrefixOf] at h
  | cons c rest => simp [containsSeq, h]

theorem containsSeq_cons_of {sep : Str} (c : Char) {z : Str}
    (h : containsSeq sep z = true) : containsSeq sep (c :: z) = true := by
  simp [containsSeq, h]

theorem containsSeq_of_suffix {sep s z : Str} (hs : s <:+ z)
    (h : containsSeq sep s = true) : containsSeq sep z = true := by
  obtain ⟨t, rfl⟩ := hs
  induction t with
  | nil => simpa using h
  | cons c u ih => exact containsSeq_cons_of c ih

theorem suffix_append_cases {x2 u w : Str} (h : x2 <:+ u ++ w) :
    x2 <:+ w ∨ ∃ u2, u2 <:+ u ∧ u2 ≠ [] ∧ x2 = u2 ++ w := by
  obtain ⟨t, ht⟩ := h
  have hx2 : x2 = (u ++ w).drop t.length := by
    rw [← ht, List.drop_left]
  by_cases hle : u.length ≤ t.length
  · left
    rw [hx2, List.drop_append_eq_append_drop, List.drop_eq_nil_of_le hle, List.nil_append]
    exact List.drop_suffix _ _
  · right
    push_neg at hle
    refine ⟨u.drop t.length, List.drop_suffix _ _, ?_, ?_⟩
    · intro he
      have hlen := congrArg List.length he
      rw [List.length_drop] at hlen
      simp at hlen
      omega
    · rw [hx2, List.drop_append_eq_append_drop,
        Nat.sub_eq_zero_of_le (le_of_lt hle), List.drop_zero]

theorem takeUntil_append {sep x z : Str}
    (hx : ∀ x2, x2 <:+ x → x2 ≠ [] → sep.isPrefixOf (x2 ++ z) = false) :
    takeUntil sep (x ++ z) = x ++ takeUntil sep z := by
  induction x with
  | nil => simp
  | cons c r ih =>
    have hcons : sep.isPrefixOf (c :: (r ++ z)) = false := by
      have := hx (c :: r) List.suffix_rfl (by simp)
      simpa using this
    show takeUntil sep (c :: (r ++ z)) = (c :: r) ++ takeUntil sep z
    rw [takeUntil, if_neg (by simp [hcons])]
    rw [ih (fun x2 hs hne => hx x2 (hs.trans (List.suffix_cons c r)) hne)]
    simp

theorem takeUntil_sep_append {sep y : Str} (hsep : sep ≠ []) :
    takeUntil sep (sep ++ y) = [] := by
  cases sep with
  | nil => exact absurd rfl hsep
  | cons c0 t =>
    show takeUntil (c0 :: t) (c0 :: (t ++ y)) = []
    rw [takeUntil, if_pos]
    rw [isPrefixOf_eq]
    exact ⟨y, by simp⟩

theorem takeUntil_through {sep x y : Str} (hsep : sep ≠ [])
    (hx : ∀ x2, x2 <:+ x → x2 ≠ [] → sep.isPrefixOf (x2 ++ (sep ++ y)) = false) :
    takeUntil sep (x ++ (sep ++ y)) = x := by
  rw [takeUntil_append hx, takeUntil_sep_append hsep, List.append_nil]

theorem splitGo_emit {sep : Str} (hsep : sep ≠ []) :
    ∀ (x : Str) (fuel : Nat) (cur : Str) (y : Str),
      (x ++ (sep ++ y)).length ≤ fuel →
      (∀ x2, x2 <:+ x → x2 ≠ [] → sep.isPrefixOf (x2 ++ (sep ++ y)) = false) →
      splitGo sep fuel (x ++ (sep ++ y)) cur =
        (cur.reverse ++ x) :: splitGo sep y.length y [] := by
  intro x
  induction x with
  | nil =>
    intro fuel cur y hf _
    cases sep with
    | nil => exact absurd rfl hsep
    | cons c0 t =>
      simp only [List.nil_append] at hf ⊢
      cases fuel with
      | zero => simp at hf
      | succ f =>
        show splitGo (c0 :: t) (f + 1) (c0 :: (t ++ y)) cur = (cur.reverse ++ []) :: _
        simp only [splitGo]
        rw [if_pos (isPrefixOf_eq.mpr ⟨y, by simp⟩)]
        have hd : List.drop ((c0 :: t).length - 1) (t ++ y) = y := by
          simp only [List.length_cons, Nat.add_sub_cancel]
          exact List.drop_left t y
        rw [hd]
        have hfl : y.length ≤ f := by simp at hf; omega
        rw [splitGo_fuel_inv (c0 :: t) f y.length y [] hfl le_rfl]
        simp
  | cons c r ih =>
    intro fuel cur y hf hx
    have hcons : sep.isPrefixOf (c :: (r ++ (sep ++ y))) = false := by
      have := hx (c :: r) List.suffix_rfl (by simp)
      simpa using this
    cases fuel with
    | zero => simp at hf
    | succ f =>
      show splitGo sep (f + 1) (c :: (r ++ (sep ++ y))) cur = (cur.reverse ++ (c :: r)) :: _
      simp only [splitGo]
      rw [if_neg (by simp [hcons])]
      rw [ih f (c :: cur) y (by simp at hf ⊢; omega)
        (fun x2 hs hne => hx x2 (hs.trans (List.suffix_cons c r)) hne)]
      simp

theorem pySplit_emit {sep : Str} (hsep : sep ≠ []) (x y : Str)
    (hx : ∀ x2, x2 <:+ x → x2 ≠ [] → sep.isPrefixOf (x2 ++ (sep ++ y)) = false) :
    pySplit sep (x ++ (sep ++ y)) = x :: pySplit sep y := by
  unfold pySplit
  rw [splitGo_emit hsep x _ [] y le_rfl hx]
  simp

theorem splitGo_single {sep : Str} :
    ∀ (s : Str) (fuel : Nat) (cur : Str), s.length ≤ fuel →
      (∀ x2, x2 <:+ s → x2 ≠ [] → sep.isPrefixOf x2 = false) →
      splitGo sep fuel s cur = [cur.reverse ++ s] := by
  intro s
  induction s with
  | nil =>
    intro fuel cur _ _
    rw [splitGo_nil]
    simp
  | cons c r ih =>
    intro fuel cur hf hs
    cases fuel with
    | zero => simp at hf
    | succ f =>
      simp only [splitGo]
      rw [if_neg (by simp [hs (c :: r) List.suffix_rfl (by simp)])]
      rw [ih f (c :: cur) (by simp at hf; omega)
        (fun x2 h2 hn => hs x2 (h2.trans (List.suffix_cons c r)) hn)]
      simp

theorem pySplit_single {sep : Str} (s : Str)
    (hs : ∀ x2, x2 <:+ s → x2 ≠ [] → sep.isPrefixOf x2 = false) :
    pySplit sep s = [s] := by
  unfold pySplit
  rw [splitGo_single s _ [] le_rfl hs]
  simp

/-! ## Machinery: decimal digits and numerals -/

theorem digitChar_toNat : ∀ n : Nat, n < 10 → (digitChar n).toNat = 48 + n := by decide

theorem digitChar_isDigit : ∀ n : Nat, n < 10 → (digitChar n).isDigit = true := by decide

theorem digitChar_ne : ∀ n : Nat, n < 10 → ∀ c : Char, c.isDigit = false → digitChar n ≠ c := by
  intro n hn c hc he
  rw [← he] at hc
  rw [digitChar_isDigit n hn] at hc
  cases hc

theorem digitsVal_append_singleton (xs : Str) (c : Char) :
    digitsVal (xs ++ [c]) = digitsVal xs * 10 + (c.toNat - 48) := by
  unfold digitsVal
  rw [List.foldl_append]
  rfl

theorem digitsVal_natToStrAux :
    ∀ (fuel n : Nat), n < 10 ^ fuel → digitsVal (natToStrAux fuel n) = n := by
  intro fuel
  induction fuel with
  | zero =>
    intro n h
    have hn : n = 0 := by simpa using h
    subst hn
    rfl
  | succ f ih =>
    intro n h
    rw [natToStrAux]
    by_cases h10 : n < 10
    · rw [if_pos h10]
      show digitsVal [digitChar n] = n
      unfold digitsVal
      simp [digitChar_toNat n h10]
    · rw [if_neg h10]
      rw [digitsVal_append_singleton]
      rw [ih (n / 10) (by
        rw [Nat.div_lt_iff_lt_mul (by norm_num)]
        calc n < 10 ^ (f + 1) := h
          _ = 10 ^ f * 10 := by rw [pow_succ])]
      rw [digitChar_toNat (n % 10) (Nat.mod_lt n (by norm_num))]
      omega

theorem digitsVal_natToStr (n : Nat) : digitsVal (natToStr n) = n := by
  apply digitsVal_natToStrAux
  calc n < 2 ^ n := Nat.lt_two_pow n
    _ ≤ 2 ^ (n + 1) := Nat.pow_le_pow_right (by norm_num) (Nat.le_succ n)
    _ ≤ 10 ^ (n + 1) := Nat.pow_le_pow_left (by norm_num) (n + 1)

theorem natToStr_inj {p q : Nat} (h : natToStr p = natToStr q) : p = q := by
  have hp := digitsVal_natToStr p
  rw [h, digitsVal_natToStr q] at hp
  exact hp.symm

theorem paged_url_page_inj {url : Str} {ps p q : Nat}
    (h : paged_url url ps p = paged_url url ps q) : p = q := by
  unfold paged_url joinAmp at h
  have h2 := List.append_cancel_left h
  rw [List.cons.injEq] at h2
  have h3 := List.append_cancel_left h2.2
  rw [List.cons.injEq] at h3
  exact natToStr_inj (List.append_cancel_left h3.2)

/-! ## Machinery: date formatting and parsing round trip -/

theorem takeDigits_exact :
    ∀ (ds r : Str), (∀ c ∈ ds, c.isDigit = true) →
      takeDigits ds.length (ds ++ r) = (ds, r) := by
  intro ds
  induction ds with
  | nil => intro r _; rfl
  | cons c t ih =>
    intro r h
    show takeDigits (t.length + 1) (c :: (t ++ r)) = (c :: t, r)
    rw [takeDigits, if_pos (h c (by simp))]
    rw [ih r (fun c2 hc2 => h c2 (by simp [hc2]))]

theorem pad2_digits (n : Nat) : ∀ c ∈ pad2 n, c.isDigit = true := by
  intro c hc
  simp only [pad2, List.mem_cons, List.mem_singleton, List.not_mem_nil, or_false] at hc
  rcases hc with h | h <;>
    (subst h; exact digitChar_isDigit _ (Nat.mod_lt _ (by norm_num)))

theorem pad4_digits (n : Nat) : ∀ c ∈ pad4 n, c.isDigit = true := by
  intro c hc
  simp only [pad4, List.mem_cons, List.not_mem_nil, or_false] at hc
  rcases hc with h | h | h | h <;>
    (subst h; exact digitChar_isDigit _ (Nat.mod_lt _ (by norm_num)))

theorem digitsVal_pad2 (n : Nat) (h : n ≤ 99) : digitsVal (pad2 n) = n := by
  show digitsVal [digitChar (n / 10 % 10), digitChar (n % 10)] = n
  unfold digitsVal
  simp only [List.foldl_cons, List.foldl_nil]
  rw [digitChar_toNat _ (Nat.mod_lt _ (by norm_num)),
    digitChar_toNat _ (Nat.mod_lt _ (by norm_num))]
  omega

theorem digitsVal_pad4 (n : Nat) (h : n ≤ 9999) : digitsVal (pad4 n) = n := by
  show digitsVal [digitChar (n / 1000 % 10), digitChar (n / 100 % 10),
    digitChar (n / 10 % 10), digitChar (n % 10)] = n
  unfold digitsVal
  simp only [List.foldl_cons, List.foldl_nil]
  rw [digitChar_toNat _ (Nat.mod_lt _ (by norm_num)),
    digitChar_toNat _ (Nat.mod_lt _ (by norm_num)),
    digitChar_toNat _ (Nat.mod_lt _ (by norm_num)),
    digitChar_toNat _ (Nat.mod_lt _ (by norm_num))]
  omega

theorem pad2_ne_nil (n : Nat) : pad2 n ≠ [] := by simp [pad2]

theorem pad4_ne_nil (n : Nat) : pad4 n ≠ [] := by simp [pad4]

theorem validDate_bounds {y m d : Nat} (h : validDate y m d = true) :
    1 ≤ y ∧ y ≤ 9999 ∧ 1 ≤ m ∧ m ≤ 12 ∧ 1 ≤ d ∧ d ≤ daysInMonth y m := by
  simp only [validDate, Bool.and_eq_true, decide_eq_true_eq] at h
  exact ⟨h.1.1.1.1.1, h.1.1.1.1.2, h.1.1.1.2, h.1.1.2, h.1.2, h.2⟩

theorem daysInMonth_le_31 (y m : Nat) : daysInMonth y m ≤ 31 := by
  unfold daysInMonth
  split
  · split <;> omega
  · split <;> omega

theorem strptimeDotted_formatDate {d : Date}
    (h : validDate d.year d.month d.day = true) :
    strptimeDotted (formatDate d) = some d := by
  obtain ⟨hy1, hy2, hm1, hm2, hd1, hd2⟩ := validDate_bounds h
  have hfmt : formatDate d =
      pad4 d.year ++ ('.' :: (pad2 d.month ++ ('.' :: (pad2 d.day ++ [])))) := by
    unfold formatDate
    simp
  have tk4 : takeDigits 4 (pad4 d.year ++ ('.' :: (pad2 d.month ++ ('.' :: (pad2 d.day ++ []))))) =
      (pad4 d.year, '.' :: (pad2 d.month ++ ('.' :: (pad2 d.day ++ [])))) := by
    have hl : (pad4 d.year).length = 4 := by simp [pad4]
    have h := takeDigits_exact (pad4 d.year) ('.' :: (pad2 d.month ++ ('.' :: (pad2 d.day ++ [])))) (pad4_digits d.year)
    rw [hl] at h
    exact h
  have tk2m : takeDigits 2 (pad2 d.month ++ ('.' :: (pad2 d.day ++ []))) =
      (pad2 d.month, '.' :: (pad2 d.day ++ [])) := by
    have hl : (pad2 d.month).length = 2 := by simp [pad2]
    have h := takeDigits_exact (pad2 d.month) ('.' :: (pad2 d.day ++ [])) (pad2_digits d.month)
    rw [hl] at h
    exact h
  have tk2d : takeDigits 2 (pad2 d.day ++ []) = (pad2 d.day, []) := by
    have hl : (pad2 d.day).length = 2 := by simp [pad2]
    have h := takeDigits_exact (pad2 d.day) [] (pad2_digits d.day)
    rw [hl] at h
    exact h
  rw [hfmt]
  unfold strptimeDotted
  rw [tk4]
  rw [if_pos (by simp [pad4])]
  simp only []
  rw [tk2m]
  simp only [pad2_ne_nil d.month, if_false, reduceIte]
  rw [tk2d]
  simp only [pad2_ne_nil d.day, if_false, reduceIte]
  rw [digitsVal_pad4 d.year hy2, digitsVal_pad2 d.month (by omega),
    digitsVal_pad2 d.day (le_trans hd2 (le_trans (daysInMonth_le_31 _ _) (by norm_num)))]
  unfold mkDate
  rw [if_pos h]

/-! ## Machinery: single-character separators and digit strings -/

theorem digit_ne_char {c a : Char} (hc : c.isDigit = true) (ha : a.isDigit = false) : a ≠ c := by
  intro he
  rw [he, hc] at ha
  cases ha

theorem single_sep_miss_append {a : Char} {x : Str} (hx : ∀ c ∈ x, a ≠ c) (z : Str) :
    ∀ x2, x2 <:+ x → x2 ≠ [] → ([a]).isPrefixOf (x2 ++ z) = false := by
  intro x2 hs hne
  cases x2 with
  | nil => exact absurd rfl hne
  | cons c r =>
    show ([a]).isPrefixOf (c :: (r ++ z)) = false
    exact cons_isPrefixOf_cons_eq_false [] _ (hx c (hs.subset (by simp)))

theorem single_sep_miss {a : Char} {x : Str} (hx : ∀ c ∈ x, a ≠ c) :
    ∀ x2, x2 <:+ x → x2 ≠ [] → ([a]).isPrefixOf x2 = false := by
  intro x2 hs hne
  cases x2 with
  | nil => exact absurd rfl hne
  | cons c r =>
    exact cons_isPrefixOf_cons_eq_false [] _ (hx c (hs.subset (by simp)))

theorem digit_not_ws {c : Char} (h : c.isDigit = true) : c.isWhitespace = false := by
  by_contra hw
  rw [Bool.not_eq_false] at hw
  simp only [Char.isWhitespace, Bool.or_eq_true, beq_iff_eq, decide_eq_true_eq] at hw
  rcases hw with ((rfl | rfl) | rfl) | rfl <;> exact absurd h (by decide)

theorem dropWhile_eq_self_of_head {p : Char → Bool} :
    ∀ (s : Str), (∀ c ∈ s, p c = false) → s.dropWhile p = s := by
  intro s h
  cases s with
  | nil => rfl
  | cons c t =>
    rw [List.dropWhile_cons_of_neg]
    simp [h c (by simp)]

theorem strip_of_digits {s : Str} (hd : ∀ c ∈ s, c.isDigit = true) : strip s = s := by
  have hws : ∀ c ∈ s, c.isWhitespace = false := fun c hc => digit_not_ws (hd c hc)
  unfold strip
  rw [dropWhile_eq_self_of_head s hws,
    dropWhile_eq_self_of_head s.reverse (fun c hc => hws c (List.mem_reverse.mp hc)),
    List.reverse_reverse]

theorem pyInt_digits {s : Str} (hne : s ≠ []) (hd : ∀ c ∈ s, c.isDigit = true) :
    pyInt s = some (digitsVal s) := by
  cases s with
  | nil => exact absurd rfl hne
  | cons c t =>
    have hcp : c ≠ '+' := fun he => absurd (he ▸ hd c (by simp)) (by decide)
    have hdp : dropPlus (c :: t) = c :: t := by
      unfold dropPlus
      rw [List.head?_cons, if_neg (by simp [hcp])]
    simp only [pyInt, strip_of_digits hd, hdp]
    rw [if_pos ⟨by simp, List.all_eq_true.mpr (fun c2 hc2 => hd c2 hc2)⟩]

/-! ## Claim C7: the tile query clauses -/

theorem set_horizontal_tile_eq (query v : Str) :
    set_horizontal_tile query v = query ++
      ("&attribute[][name]=HORIZONTALTILENUMBER&attribute[][type]=int&attribute[][value]=").data ++ v := by
  unfold set_horizontal_tile joinAmp
  rw [List.append_assoc]
  congr 1

theorem set_vertical_tile_eq (query v : Str) :
    set_vertical_tile query v = query ++
      ("&attribute[][name]=VERTICALTILENUMBER&attribute[][type]=int&attribute[][value]=").data ++ v := by
  unfold set_vertical_tile joinAmp
  rw [List.append_assoc]
  congr 1

/-- C7: for every valid tile identifier of shape h##v##, `build_query_string`
returns the base query extended with exactly one HORIZONTALTILENUMBER clause
followed by exactly one VERTICALTILENUMBER clause, each clause being the three
ordered key=value pairs name, type (`int`), value, with the values equal to the
tile's two-digit horizontal and vertical components. -/
theorem c7_build_query_string_clauses (h1 h2 v1 v2 : Char) (query : Str)
    (hh1 : h1.isDigit = true) (hh2 : h2.isDigit = true)
    (hv1 : v1.isDigit = true) (hv2 : v2.isDigit = true) :
    build_query_string ('h' :: h1 :: h2 :: 'v' :: v1 :: v2 :: []) query =
      some (query ++
        ("&attribute[][name]=HORIZONTALTILENUMBER&attribute[][type]=int&attribute[][value]=").data ++
        [h1, h2] ++
        ("&attribute[][name]=VERTICALTILENUMBER&attribute[][type]=int&attribute[][value]=").data ++
        [v1, v2]) := by
  have hvne : (['v'] : Str) ≠ [] := by simp
  have hhne : (['h'] : Str) ≠ [] := by simp
  have hxh : ∀ c ∈ (['h', h1, h2] : Str), 'v' ≠ c := by
    intro c hc
    simp only [List.mem_cons, List.not_mem_nil, or_false] at hc
    rcases hc with rfl | rfl | rfl
    · decide
    · exact digit_ne_char hh1 (by decide)
    · exact digit_ne_char hh2 (by decide)
  have hyv : ∀ c ∈ ([v1, v2] : Str), 'v' ≠ c := by
    intro c hc
    simp only [List.mem_cons, List.not_mem_nil, or_false] at hc
    rcases hc with rfl | rfl
    · exact digit_ne_char hv1 (by decide)
    · exact digit_ne_char hv2 (by decide)
  have hyh : ∀ c ∈ ([h1, h2, 'v', v1, v2] : Str), 'h' ≠ c := by
    intro c hc
    simp only [List.mem_cons, List.not_mem_nil, or_false] at hc
    rcases hc with rfl | rfl | rfl | rfl | rfl
    · exact digit_ne_char hh1 (by decide)
    · exact digit_ne_char hh2 (by decide)
    · decide
    · exact digit_ne_char hv1 (by decide)
    · exact digit_ne_char hv2 (by decide)
  have hxh2 : ∀ c ∈ ([h1, h2] : Str), 'v' ≠ c := by
    intro c hc
    simp only [List.mem_cons, List.not_mem_nil, or_false] at hc
    rcases hc with rfl | rfl
    · exact digit_ne_char hh1 (by decide)
    · exact digit_ne_char hh2 (by decide)
  have s1 : pySplit ['v'] ('h' :: h1 :: h2 :: 'v' :: v1 :: v2 :: []) =
      [['h', h1, h2], [v1, v2]] := by
    have e1 : ('h' :: h1 :: h2 :: 'v' :: v1 :: v2 :: [] : Str) =
        ['h', h1, h2] ++ (['v'] ++ [v1, v2]) := by simp
    rw [e1, pySplit_emit hvne _ _ (single_sep_miss_append hxh _),
      pySplit_single _ (single_sep_miss hyv)]
  have s2 : pySplit ['h'] ('h' :: h1 :: h2 :: 'v' :: v1 :: v2 :: []) =
      [[], [h1, h2, 'v', v1, v2]] := by
    have e2 : ('h' :: h1 :: h2 :: 'v' :: v1 :: v2 :: [] : Str) =
        [] ++ (['h'] ++ [h1, h2, 'v', v1, v2]) := by simp
    rw [e2, pySplit_emit hhne _ _ (fun x2 hs hne => by
        rw [List.suffix_nil.mp hs] at hne
        exact absurd rfl hne),
      pySplit_single _ (single_sep_miss hyh)]
  have s3 : pySplit ['v'] ([h1, h2, 'v', v1, v2] : Str) = [[h1, h2], [v1, v2]] := by
    have e3 : ([h1, h2, 'v', v1, v2] : Str) = [h1, h2] ++ (['v'] ++ [v1, v2]) := by simp
    rw [e3, pySplit_emit hvne _ _ (single_sep_miss_append hxh2 _),
      pySplit_single _ (single_sep_miss hyv)]
  unfold build_query_string
  rw [s1, s2]
  simp only [List.getElem?_cons_succ, List.getElem?_cons_zero, Option.some.injEq]
  rw [s3]
  simp only [List.headD_cons]
  rw [set_horizontal_tile_eq, set_vertical_tile_eq]

/-- Witness for C7 at the tile h09v05 and base query Q. -/
theorem c7_witness :
    build_query_string ('h' :: '0' :: '9' :: 'v' :: '0' :: '5' :: []) (("Q").data) =
      some ((("Q").data ++
        ("&attribute[][name]=HORIZONTALTILENUMBER&attribute[][type]=int&attribute[][value]=").data ++
        ['0', '9'] ++
        ("&attribute[][name]=VERTICALTILENUMBER&attribute[][type]=int&attribute[][value]=").data ++
        ['0', '5'])) :=
  c7_build_query_string_clauses '0' '9' '0' '5' (("Q").data)
    (by decide) (by decide) (by decide) (by decide)

/-! ## Claim C8: the tile-identifier gate -/

theorem tileMatches_iff (tile : Str) :
    tileMatches tile = true ↔ ∃ a b c d rest, tile = 'h' :: a :: b :: 'v' :: c :: d :: rest ∧
      a.isDigit = true ∧ b.isDigit = true ∧ c.isDigit = true ∧ d.isDigit = true := by
  constructor
  · intro hm
    unfold tileMatches at hm
    split at hm
    · next a b c d rest =>
      simp only [Bool.and_eq_true] at hm
      exact ⟨a, b, c, d, rest, rfl, hm.1.1.1, hm.1.1.2, hm.1.2, hm.2⟩
    · exact absurd hm (by simp)
  · rintro ⟨a, b, c, d, rest, rfl, h1, h2, h3, h4⟩
    simp [tileMatches, h1, h2, h3, h4]

/-- C8 (amended): every tile identifier that does not begin with the pattern
h&lt;2 digits&gt;v&lt;2 digits&gt; is rejected before any network call — no query is
built and no fetch URL is formed.  (The original claim, for every string not
exactly of that six-character shape, fails: `re.match` only anchors at the
start, so a valid prefix with trailing garbage is accepted.) -/
theorem c8_reject_malformed_tile (tile : Str)
    (h : ∀ a b c d rest, tile = 'h' :: a :: b :: 'v' :: c :: d :: rest →
      ¬(a.isDigit = true ∧ b.isDigit = true ∧ c.isDigit = true ∧ d.isDigit = true)) :
    main_fetch_url tile = none := by
  have hm : tileMatches tile = false := by
    by_contra hc
    rw [Bool.not_eq_false] at hc
    obtain ⟨a, b, c, d, rest, rfl, h1, h2, h3, h4⟩ := (tileMatches_iff tile).mp hc
    exact h a b c d rest rfl ⟨h1, h2, h3, h4⟩
  unfold main_fetch_url
  rw [hm]
  simp

/-- Witness for C8 (amended) at the malformed tile x09v05. -/
theorem c8_witness : main_fetch_url ['x', '0', '9', 'v', '0', '5'] = none :=
  c8_reject_malformed_tile ['x', '0', '9', 'v', '0', '5'] (by
    intro a b c d rest heq
    injection heq with hx _
    exact absurd hx (by decide))

/-- C8 counterexample: h09v05x is not of the fixed six-character shape
h##v##, yet the gate accepts it and a fetch URL is built, so the original
claim is false as stated. -/
theorem c8_counterexample :
    isExactTile ("h09v05x").data = false ∧ main_fetch_url ("h09v05x").data ≠ none := by
  decide

/-! ## Claim C5: hyphened range parsing -/

/-- C5 (amended): `parse_hyphened_range` maps a two-integer-token string
A-B to (A, B) and a single integer token A to (A, A); but a string whose
split on `-` yields any other token count is not a fatal error: the
`ValueError` of tuple unpacking is caught and the call falls back to the
first token, so A-B-C parses to (A, A); only a non-integer token makes the
uncaught `ValueError` of `int()` fatal. -/
theorem c5_parse_hyphened_range (a b : Str) (ha : a ≠ []) (hb : b ≠ [])
    (hda : ∀ c ∈ a, c.isDigit = true) (hdb : ∀ c ∈ b, c.isDigit = true) :
    parse_hyphened_range (a ++ '-' :: b) =
        some (((digitsVal a : Int)), ((digitsVal b : Int)))
    ∧ parse_hyphened_range a = some (((digitsVal a : Int)), ((digitsVal a : Int)))
    ∧ ∀ (c : Str), c ≠ [] → (∀ c2 ∈ c, c2.isDigit = true) →
        parse_hyphened_range (a ++ '-' :: (b ++ '-' :: c)) =
          some (((digitsVal a : Int)), ((digitsVal a : Int))) := by
  have hsep : (['-'] : Str) ≠ [] := by simp
  have hna : ∀ c2 ∈ a, '-' ≠ c2 := fun c2 hc2 => digit_ne_char (hda c2 hc2) (by decide)
  have hnb : ∀ c2 ∈ b, '-' ≠ c2 := fun c2 hc2 => digit_ne_char (hdb c2 hc2) (by decide)
  refine ⟨?_, ?_, ?_⟩
  · have hs : pySplit ['-'] (a ++ (['-'] ++ b)) = a :: pySplit ['-'] b :=
      pySplit_emit hsep a b (single_sep_miss_append hna _)
    have hb2 : pySplit ['-'] b = [b] :=
      pySplit_single b (single_sep_miss hnb)
    unfold parse_hyphened_range
    rw [show a ++ '-' :: b = a ++ (['-'] ++ b) from rfl, hs, hb2]
    show (match pyInt a with
      | none => none
      | some x =>
        match pyInt b with
        | none => none
        | some y => some (((x : Int)), ((y : Int)))) =
      some (((digitsVal a : Int)), ((digitsVal b : Int)))
    rw [pyInt_digits ha hda, pyInt_digits hb hdb]
  · have ha2 : pySplit ['-'] a = [a] :=
      pySplit_single a (single_sep_miss hna)
    unfold parse_hyphened_range
    rw [ha2]
    show (match pyInt (([a] : List Str).headD []) with
      | none => none
      | some x => some (((x : Int)), ((x : Int)))) =
      some (((digitsVal a : Int)), ((digitsVal a : Int)))
    rw [List.headD_cons, pyInt_digits ha hda]
  · intro c hc hdc
    have hnc : ∀ c2 ∈ c, '-' ≠ c2 := fun c2 hc2 => digit_ne_char (hdc c2 hc2) (by decide)
    have hs1 : pySplit ['-'] (a ++ (['-'] ++ (b ++ (['-'] ++ c)))) =
        a :: pySplit ['-'] (b ++ (['-'] ++ c)) :=
      pySplit_emit hsep a _ (single_sep_miss_append hna _)
    have hs2 : pySplit ['-'] (b ++ (['-'] ++ c)) = b :: pySplit ['-'] c :=
      pySplit_emit hsep b c (single_sep_miss_append hnb _)
    have hs3 : pySplit ['-'] c = [c] :=
      pySplit_single c (single_sep_miss hnc)
    unfold parse_hyphened_range
    rw [show a ++ '-' :: (b ++ '-' :: c) = a ++ (['-'] ++ (b ++ (['-'] ++ c))) from rfl,
      hs1, hs2, hs3]
    show (match pyInt ((a :: b :: [c] : List Str).headD []) with
      | none => none
      | some x => some (((x : Int)), ((x : Int)))) =
      some (((digitsVal a : Int)), ((digitsVal a : Int)))
    rw [List.headD_cons, pyInt_digits ha hda]

/-- Witness for C5 (amended) at the string 1-2. -/
theorem c5_witness :
    parse_hyphened_range (['1'] ++ '-' :: ['2']) = some ((1 : Int), (2 : Int)) :=
  (c5_parse_hyphened_range ['1'] ['2'] (by simp) (by simp) (by decide) (by decide)).1

/-- C5 counterexample: the malformed range 150-300-400 (three
hyphen-separated tokens) is not a fatal input error; the code silently
produces the pair (150, 150). -/
theorem c5_counterexample :
    parse_hyphened_range (("150-300-400").data) = some ((150 : Int), (150 : Int)) := by
  decide

/-! ## Claims C2, C10, C9: one loop iteration and termination -/

/-- C2: when a page request returns a non-200 status the loop neither
raises nor ends the run: the failure line is logged, the page counter is
incremented so the next request is for the following page number, and the
accumulated link list is left unchanged by the failed page. -/
theorem c2_failed_page_advances (api : Str → PageResponse) (url : Str)
    (page_size fuel : Nat) (st : FetchState)
    (h : (api (paged_url url page_size st.page)).status_code ≠ 200) :
    fetch_loop api url page_size (fuel + 1) st =
      fetch_loop api url page_size fuel
        ⟨st.page + 1, st.all_urls, st.trace ++ [paged_url url page_size st.page],
          st.log ++ [fail_msg (paged_url url page_size st.page)
            (api (paged_url url page_size st.page)).status_code]⟩ := by
  simp only [fetch_loop]
  rw [if_pos h]

/-- Witness for C2: a page-1 request answered 404 advances to page 2 with
the accumulator unchanged and the failure logged. -/
theorem c2_witness :
    fetch_loop (fun _ => ⟨404, fun _ => none, ⟨[]⟩⟩) (("Q").data) PAGE_SIZE 1 ⟨1, [], [], []⟩ =
      fetch_loop (fun _ => ⟨404, fun _ => none, ⟨[]⟩⟩) (("Q").data) PAGE_SIZE 0
        ⟨2, [], [paged_url (("Q").data) PAGE_SIZE 1],
          [fail_msg (paged_url (("Q").data) PAGE_SIZE 1) 404]⟩ :=
  c2_failed_page_advances (fun _ => ⟨404, fun _ => none, ⟨[]⟩⟩) (("Q").data)
    PAGE_SIZE 0 ⟨1, [], [], []⟩ (by decide)

/-- C10: on a successful (200) page the loop continues to the next page
exactly when the echo-cursor-at-end header equals the string false; any
other value — also False, FALSE or the empty string — ends pagination
right after this page's links were appended to the result. -/
theorem c10_cursor_compared_to_false (api : Str → PageResponse) (url : Str)
    (page_size fuel : Nat) (st : FetchState) (v : Str)
    (h200 : (api (paged_url url page_size st.page)).status_code = 200)
    (hv : (api (paged_url url page_size st.page)).headers cursorKey = some v) :
    fetch_loop api url page_size (fuel + 1) st =
      (if v = falseStr then
        fetch_loop api url page_size fuel
          ⟨st.page + 1,
            st.all_urls ++ parse_hdf_paths (api (paged_url url page_size st.page)).body,
            st.trace ++ [paged_url url page_size st.page], st.log⟩
      else
        FetchResult.ok
          (st.all_urls ++ parse_hdf_paths (api (paged_url url page_size st.page)).body)
          (st.trace ++ [paged_url url page_size st.page]) st.log) := by
  simp only [fetch_loop]
  rw [if_neg (by simp [h200]), hv]

/-- Witness for C10: a 200 page whose cursor header is the string False
(capitalised) ends the run with just that page's links. -/
theorem c10_witness :
    fetch_loop
        (fun _ => ⟨200, fun _ => some (("False").data), ⟨[⟨[⟨("a.hdf").data⟩]⟩]⟩⟩)
        (("Q").data) PAGE_SIZE 3 ⟨1, [], [], []⟩ =
      (if (("False").data : Str) = falseStr then
        fetch_loop
          (fun _ => ⟨200, fun _ => some (("False").data), ⟨[⟨[⟨("a.hdf").data⟩]⟩]⟩⟩)
          (("Q").data) PAGE_SIZE 2
          ⟨2, [] ++ parse_hdf_paths (⟨[⟨[⟨("a.hdf").data⟩]⟩]⟩ : FeedBody),
            [] ++ [paged_url (("Q").data) PAGE_SIZE 1], []⟩
      else
        FetchResult.ok ([] ++ parse_hdf_paths (⟨[⟨[⟨("a.hdf").data⟩]⟩]⟩ : FeedBody))
          ([] ++ [paged_url (("Q").data) PAGE_SIZE 1]) []) :=
  c10_cursor_compared_to_false
    (fun _ => ⟨200, fun _ => some (("False").data), ⟨[⟨[⟨("a.hdf").data⟩]⟩]⟩⟩)
    (("Q").data) PAGE_SIZE 2 ⟨1, [], [], []⟩ (("False").data) (by decide) rfl

/-- C9 (amended): the loop returns its accumulated list normally only
when some successfully fetched page carried an echo-cursor-at-end value
other than false; an API that never answers with status 200 makes the
loop run forever (on any fuel it only ever runs out of fuel); and — against
the original claim — an API whose successful response lacks the
echo-cursor-at-end header does not loop forever: the run terminates at
once with the KeyError of the header lookup, an error exit. -/
theorem c9_termination (api : Str → PageResponse) (url : Str) (page_size : Nat) :
    (∀ fuel st urls tr lg,
      fetch_loop api url page_size fuel st = FetchResult.ok urls tr lg →
      ∃ p v, (api (paged_url url page_size p)).status_code = 200 ∧
        (api (paged_url url page_size p)).headers cursorKey = some v ∧ v ≠ falseStr)
    ∧ ((∀ s, (api s).status_code ≠ 200) →
        ∀ fuel st, ∃ st2, fetch_loop api url page_size fuel st = FetchResult.outOfFuel st2)
    ∧ (∀ fuel st, (api (paged_url url page_size st.page)).status_code = 200 →
        (api (paged_url url page_size st.page)).headers cursorKey = none →
        fetch_loop api url page_size (fuel + 1) st =
          FetchResult.keyError (st.trace ++ [paged_url url page_size st.page]) st.log) := by
  refine ⟨?_, ?_, ?_⟩
  · intro fuel
    induction fuel with
    | zero =>
      intro st urls tr lg h
      exact FetchResult.noConfusion h
    | succ f ih =>
      intro st urls tr lg h
      simp only [fetch_loop] at h
      by_cases h200 : (api (paged_url url page_size st.page)).status_code ≠ 200
      · rw [if_pos h200] at h
        exact ih _ _ _ _ h
      · rw [if_neg h200] at h
        cases hh : (api (paged_url url page_size st.page)).headers cursorKey with
        | none =>
          simp [hh] at h
        | some v =>
          simp only [hh] at h
          by_cases hv : v = falseStr
          · rw [if_pos hv] at h
            exact ih _ _ _ _ h
          · rw [if_neg hv] at h
            exact ⟨st.page, v, not_ne_iff.mp h200, hh, hv⟩
  · intro hfail fuel
    induction fuel with
    | zero => intro st; exact ⟨st, rfl⟩
    | succ f ih =>
      intro st
      simp only [fetch_loop]
      rw [if_pos (hfail _)]
      exact ih _
  · intro fuel st h200 hnone
    simp only [fetch_loop]
    rw [if_neg (by simp [h200]), hnone]

/-- Witness for C9 (amended): a 200 response without the header raises at
page 1. -/
theorem c9_witness :
    fetch_loop (fun _ => ⟨200, fun _ => none, ⟨[]⟩⟩) (("Q").data) PAGE_SIZE 1
        ⟨1, [], [], []⟩ =
      FetchResult.keyError ([] ++ [paged_url (("Q").data) PAGE_SIZE 1]) [] :=
  (c9_termination (fun _ => ⟨200, fun _ => none, ⟨[]⟩⟩) (("Q").data) PAGE_SIZE).2.2
    0 ⟨1, [], [], []⟩ rfl rfl

/-- C9 counterexample: with an API that never returns the
echo-cursor-at-end indicator the loop does not run forever — the run of
`generate_all_download_urls` exits with a KeyError on the very first page,
contradicting the claim that it never terminates rather than erroring. -/
theorem c9_counterexample :
    generate_all_download_urls (fun _ => ⟨200, fun _ => none, ⟨[]⟩⟩) (("Q").data) 5 =
      FetchResult.keyError [paged_url (("Q").data) PAGE_SIZE 1] [] := by
  decide

/-! ## Claim C1: the successful pagination run -/

theorem fetch_loop_run (api : Str → PageResponse) (url : Str) (page_size : Nat)
    (v : Str) (hv : v ≠ falseStr) :
    ∀ (k page fuel : Nat) (acc tr lg : List Str),
      (∀ i, i < k → (api (paged_url url page_size (page + i))).status_code = 200 ∧
        (api (paged_url url page_size (page + i))).headers cursorKey = some falseStr) →
      (api (paged_url url page_size (page + k))).status_code = 200 →
      (api (paged_url url page_size (page + k))).headers cursorKey = some v →
      k + 1 ≤ fuel →
      fetch_loop api url page_size fuel ⟨page, acc, tr, lg⟩ =
        FetchResult.ok
          (acc ++ concatMap
            (fun i => parse_hdf_paths (api (paged_url url page_size i)).body)
            (List.range' page (k + 1)))
          (tr ++ (List.range' page (k + 1)).map (paged_url url page_size)) lg := by
  intro k
  induction k with
  | zero =>
    intro page fuel acc tr lg _ h200 hv2 hf
    simp only [Nat.add_zero] at h200 hv2
    cases fuel with
    | zero => omega
    | succ f =>
      simp only [fetch_loop]
      rw [if_neg (by simp [h200])]
      simp only [hv2]
      rw [if_neg hv]
      simp [concatMap, List.range']
  | succ k ih =>
    intro page fuel acc tr lg hall h200 hv2 hf
    cases fuel with
    | zero => omega
    | succ f =>
      have h0 := hall 0 (by omega)
      simp only [Nat.add_zero] at h0
      simp only [fetch_loop]
      rw [if_neg (by simp [h0.1])]
      simp only [h0.2]
      rw [if_pos trivial]
      have hshift : page + 1 + k = page + (k + 1) := by omega
      rw [ih (page + 1) f _ _ _
        (fun i hi => by
          have hx := hall (i + 1) (by omega)
          have he : page + (i + 1) = page + 1 + i := by omega
          rw [he] at hx
          exact hx)
        (by rw [hshift]; exact h200)
        (by rw [hshift]; exact hv2) (by omega)]
      have hr : List.range' page (k + 1 + 1) = page :: List.range' (page + 1) (k + 1) :=
        List.range'_succ page (k + 1) 1
      rw [hr]
      simp [concatMap, List.append_assoc]

/-- C1: for every base query URL and an API in which pages 1..k succeed
with cursor-at-end false and page k+1 succeeds with any other cursor
value, `generate_all_download_urls` returns exactly the concatenation of
the extracted .hdf links of pages 1 through k+1, in page order and
within-page order, having requested exactly pages 1..k+1 — in particular
it issues no request for page k+2. -/
theorem c1_pagination (api : Str → PageResponse) (url : Str) (k fuel : Nat) (v : Str)
    (hpages : ∀ i, 1 ≤ i → i ≤ k →
      (api (paged_url url PAGE_SIZE i)).status_code = 200 ∧
      (api (paged_url url PAGE_SIZE i)).headers cursorKey = some falseStr)
    (hlast200 : (api (paged_url url PAGE_SIZE (k + 1))).status_code = 200)
    (hlastv : (api (paged_url url PAGE_SIZE (k + 1))).headers cursorKey = some v)
    (hv : v ≠ falseStr)
    (hfuel : k + 1 ≤ fuel) :
    generate_all_download_urls api url fuel =
      FetchResult.ok
        (concatMap (fun i => parse_hdf_paths (api (paged_url url PAGE_SIZE i)).body)
          (List.range' 1 (k + 1)))
        ((List.range' 1 (k + 1)).map (paged_url url PAGE_SIZE)) []
    ∧ paged_url url PAGE_SIZE (k + 2) ∉
        (List.range' 1 (k + 1)).map (paged_url url PAGE_SIZE) := by
  constructor
  · unfold generate_all_download_urls
    have hrun := fetch_loop_run api url PAGE_SIZE v hv k 1 fuel [] [] []
      (fun i hi => hpages (1 + i) (by omega) (by omega))
      (by rw [Nat.add_comm 1 k]; exact hlast200)
      (by rw [Nat.add_comm 1 k]; exact hlastv) hfuel
    simpa using hrun
  · intro hmem
    simp only [List.mem_map] at hmem
    obtain ⟨i, hi, he⟩ := hmem
    have hieq : i = k + 2 := paged_url_page_inj he
    rw [List.mem_range'_1] at hi
    omega

/-- Witness for C1: a two-page API (page 1 cursor false, page 2 cursor
true) yields the concatenation of both pages' links and requests exactly
pages 1 and 2. -/
theorem c1_witness :
    generate_all_download_urls
        (fun s => if s = paged_url (("U").data) PAGE_SIZE 1 then
            ⟨200, fun _ => some (("false").data), ⟨[⟨[⟨("a.hdf").data⟩]⟩]⟩⟩
          else ⟨200, fun _ => some (("true").data), ⟨[⟨[⟨("b.hdf").data⟩]⟩]⟩⟩)
        (("U").data) 2 =
      FetchResult.ok
        (concatMap (fun i => parse_hdf_paths
          ((fun s => if s = paged_url (("U").data) PAGE_SIZE 1 then
              (⟨200, fun _ => some (("false").data), ⟨[⟨[⟨("a.hdf").data⟩]⟩]⟩⟩ : PageResponse)
            else ⟨200, fun _ => some (("true").data), ⟨[⟨[⟨("b.hdf").data⟩]⟩]⟩⟩)
            (paged_url (("U").data) PAGE_SIZE i)).body)
          (List.range' 1 (1 + 1)))
        ((List.range' 1 (1 + 1)).map (paged_url (("U").data) PAGE_SIZE)) []
    ∧ paged_url (("U").data) PAGE_SIZE (1 + 2) ∉
        (List.range' 1 (1 + 1)).map (paged_url (("U").data) PAGE_SIZE) :=
  c1_pagination
    (fun s => if s = paged_url (("U").data) PAGE_SIZE 1 then
        ⟨200, fun _ => some (("false").data), ⟨[⟨[⟨("a.hdf").data⟩]⟩]⟩⟩
      else ⟨200, fun _ => some (("true").data), ⟨[⟨[⟨("b.hdf").data⟩]⟩]⟩⟩)
    (("U").data) 1 2 (("true").data)
    (by
      intro i h1 h2
      have hi : i = 1 := by omega
      subst hi
      exact ⟨by decide, by decide⟩)
    (by decide) (by decide) (by decide) (by decide)

/-! ## Claims C3 and C4: the two filtering strategies -/

theorem filterUrls_eq (p : Date → Bool) :
    ∀ (urls : List Str), (∀ u ∈ urls, (granule_date u).isSome = true) →
      filterUrls p urls = some (urls.filter (fun u =>
        match granule_date u with
        | some d => p d
        | none => false)) := by
  intro urls
  induction urls with
  | nil => intro _; rfl
  | cons u us ih =>
    intro h
    obtain ⟨d, hd⟩ := Option.isSome_iff_exists.mp (h u (by simp))
    simp only [filterUrls, hd]
    rw [ih (fun u2 hu2 => h u2 (by simp [hu2]))]
    simp only [List.filter_cons, hd]

/-- C3: for URL lists with parseable granule dates and parseable optional
YYYYMMDD bounds, `date_range_filter` keeps exactly (and in order) the URLs
whose granule date lies within the inclusive window, an absent bound being
unbounded on that side, and with both bounds absent it returns the input
unchanged. -/
theorem c3_date_range_filter (urls : List Str)
    (hp : ∀ u ∈ urls, (granule_date u).isSome = true) :
    date_range_filter urls none none = some urls
    ∧ (∀ s sd, strptimeYmd8 s = some sd →
        date_range_filter urls (some s) none =
          some (urls.filter (fun u =>
            match granule_date u with
            | some d => dateLe sd d
            | none => false)))
    ∧ (∀ e ed, strptimeYmd8 e = some ed →
        date_range_filter urls none (some e) =
          some (urls.filter (fun u =>
            match granule_date u with
            | some d => dateLe d ed
            | none => false)))
    ∧ (∀ s e sd ed, strptimeYmd8 s = some sd → strptimeYmd8 e = some ed →
        date_range_filter urls (some s) (some e) =
          some (urls.filter (fun u =>
            match granule_date u with
            | some d => dateLe sd d && dateLe d ed
            | none => false))) := by
  refine ⟨rfl, ?_, ?_, ?_⟩
  · intro s sd hs
    simp only [date_range_filter, hs]
    exact filterUrls_eq _ urls hp
  · intro e ed he2
    simp only [date_range_filter, he2]
    exact filterUrls_eq _ urls hp
  · intro s e sd ed hs he2
    simp only [date_range_filter, he2, hs]
    exact filterUrls_eq _ urls hp

/-- Witness for C3 at the spec's example: dates 2013-01-01, 2013-06-15,
2013-12-31 with bounds 20130101..20130615 keep exactly the first two. -/
theorem c3_witness :
    date_range_filter
        [("x/MOD09GA.005/2013.01.01/MOD09GA.Aa.hdf").data,
          ("x/MOD09GA.005/2013.06.15/MOD09GA.Ab.hdf").data,
          ("x/MOD09GA.005/2013.12.31/MOD09GA.Ac.hdf").data]
        (some (("20130101").data)) (some (("20130615").data)) =
      some ([("x/MOD09GA.005/2013.01.01/MOD09GA.Aa.hdf").data,
          ("x/MOD09GA.005/2013.06.15/MOD09GA.Ab.hdf").data,
          ("x/MOD09GA.005/2013.12.31/MOD09GA.Ac.hdf").data].filter (fun u =>
        match granule_date u with
        | some d => dateLe ⟨2013, 1, 1⟩ d && dateLe d ⟨2013, 6, 15⟩
        | none => false)) :=
  ((c3_date_range_filter
      [("x/MOD09GA.005/2013.01.01/MOD09GA.Aa.hdf").data,
        ("x/MOD09GA.005/2013.06.15/MOD09GA.Ab.hdf").data,
        ("x/MOD09GA.005/2013.12.31/MOD09GA.Ac.hdf").data]
      (by decide)).2.2.2) (("20130101").data) (("20130615").data)
    ⟨2013, 1, 1⟩ ⟨2013, 6, 15⟩ (by decide) (by decide)

/-- C4 (amended): for URL lists whose granule dates all parse with a year
of at least 1900 and integer ranges (min_d, max_d), (min_y, max_y),
`doy_and_year_filter` keeps exactly (and in input order) the URLs whose
granule (year, day-of-year) satisfies both inclusive ranges at once.
(The original claim, for every list with parseable granule dates, fails:
Python 2.7's `strftime` raises `ValueError` on years before 1900, so a
parseable pre-1900 date makes the run raise instead of filtering.) -/
theorem c4_doy_and_year_filter (urls : List Str) (min_d max_d min_y max_y : Int)
    (hp : ∀ u ∈ urls, ∃ dt, granule_date u = some dt ∧ 1900 ≤ dt.year) :
    doy_and_year_filter urls (min_d, max_d) (min_y, max_y) =
      some (urls.filter (fun u =>
        match granule_date u with
        | some dt =>
          decide (min_y ≤ ((dt.year : Int))) && decide (((dt.year : Int)) ≤ max_y) &&
            decide (min_d ≤ ((dayOfYear dt : Int))) && decide (((dayOfYear dt : Int)) ≤ max_d)
        | none => false)) := by
  induction urls with
  | nil => rfl
  | cons u us ih =>
    obtain ⟨dt, hd, hy⟩ := hp u (by simp)
    have hus := ih (fun u2 h2 => hp u2 (by simp [h2]))
    cases hgus : give_url_dates us with
    | none => simp [doy_and_year_filter, hgus] at hus
    | some xs =>
      simp only [doy_and_year_filter, hgus, Option.some.injEq] at hus
      have hg : give_url_dates (u :: us) =
          some ((u, ((dt.year : Int)), ((dayOfYear dt : Int))) :: xs) := by
        simp only [give_url_dates, hd, hgus]
        rw [if_neg (by omega)]
      simp only [doy_and_year_filter, hg]
      simp only [List.filter_cons, hd]
      cases hc : (decide (min_y ≤ ((dt.year : Int))) && decide (((dt.year : Int)) ≤ max_y) &&
          decide (min_d ≤ ((dayOfYear dt : Int))) && decide (((dayOfYear dt : Int)) ≤ max_d)) with
      | true =>
        rw [if_pos rfl, if_pos rfl]
        simp [hus]
      | false =>
        rw [if_neg (by simp), if_neg (by simp), hus]

/-- C4 counterexample: the URL date 1850-01-01 has a parseable granule
date, yet `doy_and_year_filter` on a list containing it raises (Python
2.7's `strftime` requires year >= 1900) instead of returning the filtered
list, so the original claim over every list with parseable dates is
false. -/
theorem c4_counterexample :
    (granule_date (("x/MOD09GA.005/1850.01.01/MOD09GA.Aa.hdf").data)).isSome = true
    ∧ doy_and_year_filter [("x/MOD09GA.005/1850.01.01/MOD09GA.Aa.hdf").data]
        ((1 : Int), (366 : Int)) ((1800 : Int), (1900 : Int)) = none := by
  decide

/-- Witness for C4 (amended) at the spec's example: (year, doy) pairs
(2012,100), (2013,50), (2013,200) with year range 2013..2013 and doy
range 50..150. -/
theorem c4_witness :
    doy_and_year_filter
        [("x/MOD09GA.005/2012.04.09/MOD09GA.Aa.hdf").data,
          ("x/MOD09GA.005/2013.02.19/MOD09GA.Ab.hdf").data,
          ("x/MOD09GA.005/2013.07.19/MOD09GA.Ac.hdf").data]
        ((50 : Int), (150 : Int)) ((2013 : Int), (2013 : Int)) =
      some ([("x/MOD09GA.005/2012.04.09/MOD09GA.Aa.hdf").data,
          ("x/MOD09GA.005/2013.02.19/MOD09GA.Ab.hdf").data,
          ("x/MOD09GA.005/2013.07.19/MOD09GA.Ac.hdf").data].filter (fun u =>
        match granule_date u with
        | some dt =>
          decide ((2013 : Int) ≤ ((dt.year : Int))) && decide (((dt.year : Int)) ≤ (2013 : Int)) &&
            decide ((50 : Int) ≤ ((dayOfYear dt : Int))) && decide (((dayOfYear dt : Int)) ≤ (150 : Int))
        | none => false)) :=
  c4_doy_and_year_filter
    [("x/MOD09GA.005/2012.04.09/MOD09GA.Aa.hdf").data,
      ("x/MOD09GA.005/2013.02.19/MOD09GA.Ab.hdf").data,
      ("x/MOD09GA.005/2013.07.19/MOD09GA.Ac.hdf").data]
    50 150 2013 2013
    (by
      intro u hu
      simp only [List.mem_cons, List.not_mem_nil, or_false] at hu
      rcases hu with rfl | rfl | rfl
      · exact ⟨⟨2012, 4, 9⟩, by decide, by decide⟩
      · exact ⟨⟨2013, 2, 19⟩, by decide, by decide⟩
      · exact ⟨⟨2013, 7, 19⟩, by decide, by decide⟩)

/-! ## Claim C6: the granule-date round trip -/

theorem prefix_append_left {l1 l2 : Str} (x : Str) (h : l1 <+: l2) :
    x ++ l1 <+: x ++ l2 := by
  obtain ⟨r, hr⟩ := h
  exact ⟨r, by rw [List.append_assoc, hr]⟩

theorem suffix_append_right {x2 p : Str} (z : Str) (h : x2 <:+ p) :
    x2 ++ z <:+ p ++ z := by
  obtain ⟨w, hw⟩ := h
  exact ⟨w, by rw [← List.append_assoc, hw]⟩

theorem suffix_tail_of_lt {x2 l : Str} (h : x2 <:+ l) (hl : x2.length < l.length) :
    x2 <:+ l.tail := by
  obtain ⟨w, hw⟩ := h
  cases w with
  | nil =>
    rw [List.nil_append] at hw
    subst hw
    omega
  | cons c w2 =>
    exact ⟨w2, show w2 ++ x2 = l.tail from by rw [← hw]; rfl⟩

theorem no_occ_in_extended {p x2 : Str} (t : Str)
    (hp : containsSeq MARKER1 (p ++ MARKER1.dropLast) = false)
    (hs : x2 <:+ p) (hne : x2 ≠ []) :
    MARKER1.isPrefixOf (x2 ++ (MARKER1 ++ t)) = false := by
  by_contra hc
  rw [Bool.not_eq_false] at hc
  have h1 : MARKER1 <+: x2 ++ (MARKER1 ++ t) := isPrefixOf_eq.mp hc
  have h2 : x2 ++ MARKER1.dropLast <+: x2 ++ (MARKER1 ++ t) :=
    prefix_append_left x2
      (( List.dropLast_prefix MARKER1).trans (List.prefix_append MARKER1 t))
  have hlen : MARKER1.length ≤ (x2 ++ MARKER1.dropLast).length := by
    rw [List.length_append]
    have hx1 : 1 ≤ x2.length := by
      cases x2 with
      | nil => exact absurd rfl hne
      | cons a b => simp
    have h13 : MARKER1.length = 13 := by decide
    have h12 : MARKER1.dropLast.length = 12 := by decide
    omega
  have h3 : MARKER1 <+: x2 ++ MARKER1.dropLast :=
    List.prefix_of_prefix_length_le h1 h2 hlen
  have h4 : containsSeq MARKER1 (x2 ++ MARKER1.dropLast) = true :=
    containsSeq_of_isPrefixOf (isPrefixOf_eq.mpr h3)
  have h5 : containsSeq MARKER1 (p ++ MARKER1.dropLast) = true :=
    containsSeq_of_suffix (suffix_append_right MARKER1.dropLast hs) h4
  rw [h5] at hp
  cases hp

theorem formatDate_chars {d : Date} (c : Char) (hc : c ∈ formatDate d) :
    c = '.' ∨ c.isDigit = true := by
  unfold formatDate at hc
  simp only [List.mem_append, List.mem_cons] at hc
  rcases hc with (h4 | (rfl | h2)) | (rfl | h2b)
  · exact Or.inr (pad4_digits d.year c h4)
  · exact Or.inl rfl
  · exact Or.inr (pad2_digits d.month c h2)
  · exact Or.inl rfl
  · exact Or.inr (pad2_digits d.day c h2b)

theorem slash_ne_fmt_char {d : Date} {c : Char} (hc : c ∈ formatDate d) : '/' ≠ c := by
  rcases formatDate_chars c hc with rfl | hd2
  · decide
  · exact digit_ne_char hd2 (by decide)

/-- C6 (amended): for every URL built as prefix + /MOD09GA.005/ + a
%Y.%m.%d-formatted valid date + /MOD09GA.A + suffix, where the marker
/MOD09GA.005/ does not already occur inside prefix + /MOD09GA.005 (i.e.
the constructed marker occurrence is the first one in the URL),
`granule_date` returns exactly that date.  (The original claim, for
every prefix, fails when the prefix itself contains the marker: the
split then selects an earlier path segment.) -/
theorem c6_granule_date_roundtrip (p s : Str) (d : Date)
    (hd : validDate d.year d.month d.day = true)
    (hp : containsSeq MARKER1 (p ++ MARKER1.dropLast) = false) :
    granule_date (p ++ MARKER1 ++ formatDate d ++ MARKER2 ++ s) = some d := by
  have hM1ne : MARKER1 ≠ [] := by decide
  have hurl : p ++ MARKER1 ++ formatDate d ++ MARKER2 ++ s =
      p ++ (MARKER1 ++ (formatDate d ++ (MARKER2 ++ s))) := by
    simp [List.append_assoc]
  rw [hurl]
  have hsplit1 : pySplit MARKER1 (p ++ (MARKER1 ++ (formatDate d ++ (MARKER2 ++ s)))) =
      p :: pySplit MARKER1 (formatDate d ++ (MARKER2 ++ s)) :=
    pySplit_emit hM1ne p _ (fun x2 hs hne => no_occ_in_extended _ hp hs hne)
  have hidx : (pySplit MARKER1 (p ++ (MARKER1 ++ (formatDate d ++ (MARKER2 ++ s)))))[1]? =
      some (takeUntil MARKER1 (formatDate d ++ (MARKER2 ++ s))) := by
    rw [hsplit1, List.getElem?_cons_succ, ← List.head?_eq_getElem?, pySplit_head]
  have hx2 : ∀ x2, x2 <:+ (formatDate d ++ MARKER2) → x2 ≠ [] →
      MARKER1.isPrefixOf (x2 ++ s) = false := by
    intro x2 hs hne
    rcases suffix_append_cases hs with hsub | ⟨f2, hf2, hf2ne, rfl⟩
    · by_cases heq : x2 = MARKER2
      · subst heq
        by_contra hcc
        rw [Bool.not_eq_false] at hcc
        have h1 : MARKER1 <+: MARKER2 ++ s := isPrefixOf_eq.mp hcc
        have h10 : MARKER1.take 10 <+: MARKER2 ++ s :=
          ( List.take_prefix 10 MARKER1).trans h1
        have h2 : MARKER2 <+: MARKER2 ++ s := List.prefix_append _ _
        have h3 : MARKER1.take 10 <+: MARKER2 :=
          List.prefix_of_prefix_length_le h10 h2 (by decide)
        have h4 : MARKER1.take 10 = MARKER2 := h3.eq_of_length (by decide)
        exact absurd h4 (by decide)
      · have hlt : x2.length < MARKER2.length := by
          rcases Nat.lt_or_ge x2.length MARKER2.length with h | h
          · exact h
          · exact absurd (hsub.eq_of_length (le_antisymm hsub.length_le h)) heq
        have htl : x2 <:+ MARKER2.tail := suffix_tail_of_lt hsub hlt
        cases x2 with
        | nil => exact absurd rfl hne
        | cons c r =>
          have hcm : c ∈ MARKER2.tail := htl.subset (by simp)
          have hslash : '/' ≠ c := by
            have hall : ∀ c2 ∈ MARKER2.tail, '/' ≠ c2 := by decide
            exact hall c hcm
          rw [show MARKER1 = '/' :: ("MOD09GA.005/").data from by decide]
          exact cons_isPrefixOf_cons_eq_false _ _ hslash
    · cases f2 with
      | nil => exact absurd rfl hf2ne
      | cons c r =>
        have hcm : c ∈ formatDate d := hf2.subset (by simp)
        have hslash : '/' ≠ c := slash_ne_fmt_char hcm
        rw [show MARKER1 = '/' :: ("MOD09GA.005/").data from by decide]
        exact cons_isPrefixOf_cons_eq_false _ _ hslash
  have hmid : takeUntil MARKER1 (formatDate d ++ (MARKER2 ++ s)) =
      (formatDate d ++ MARKER2) ++ takeUntil MARKER1 s := by
    have hform : formatDate d ++ (MARKER2 ++ s) = (formatDate d ++ MARKER2) ++ s := by
      simp [List.append_assoc]
    rw [hform]
    exact takeUntil_append hx2
  have hinner : (pySplit MARKER2
      (takeUntil MARKER1 (formatDate d ++ (MARKER2 ++ s)))).headD [] = formatDate d := by
    rw [pySplit_headD, hmid]
    have hx3 : ∀ x2, x2 <:+ formatDate d → x2 ≠ [] →
        MARKER2.isPrefixOf (x2 ++ (MARKER2 ++ takeUntil MARKER1 s)) = false := by
      intro x2 hs hne
      cases x2 with
      | nil => exact absurd rfl hne
      | cons c r =>
        have hcm : c ∈ formatDate d := hs.subset (by simp)
        have hslash : '/' ≠ c := slash_ne_fmt_char hcm
        rw [show MARKER2 = '/' :: ("MOD09GA.A").data from by decide]
        exact cons_isPrefixOf_cons_eq_false _ _ hslash
    have hassoc : (formatDate d ++ MARKER2) ++ takeUntil MARKER1 s =
        formatDate d ++ (MARKER2 ++ takeUntil MARKER1 s) := by
      simp [List.append_assoc]
    rw [hassoc]
    exact takeUntil_through (by decide) hx3
  unfold granule_date
  rw [hidx]
  show strptimeDotted ((pySplit MARKER2
    (takeUntil MARKER1 (formatDate d ++ (MARKER2 ++ s)))).headD []) = some d
  rw [hinner]
  exact strptimeDotted_formatDate hd

/-- Witness for C6 (amended): a real-shaped catalog URL for 2013-08-03
round-trips. -/
theorem c6_witness :
    granule_date (("http://e4ftl01.cr.usgs.gov/MODIS_Dailies_A/MOLT").data ++ MARKER1 ++
        formatDate ⟨2013, 8, 3⟩ ++ MARKER2 ++ ("2013215.h10v03.005.2013217100343.hdf").data) =
      some ⟨2013, 8, 3⟩ :=
  c6_granule_date_roundtrip (("http://e4ftl01.cr.usgs.gov/MODIS_Dailies_A/MOLT").data)
    (("2013215.h10v03.005.2013217100343.hdf").data) ⟨2013, 8, 3⟩ (by decide) (by decide)

/-- C6 counterexample: with a prefix that itself contains the marker
/MOD09GA.005/, the URL built from the date 2013-08-03 does not round-trip:
extraction returns 1999-01-01, the date after the first marker occurrence,
so the original for-every-prefix claim is false. -/
theorem c6_counterexample :
    granule_date (("x/MOD09GA.005/1999.01.01/MOD09GA.Ay").data ++ MARKER1 ++
        formatDate ⟨2013, 8, 3⟩ ++ MARKER2 ++ ("1.hdf").data) = some ⟨1999, 1, 1⟩
    ∧ (⟨1999, 1, 1⟩ : Date) ≠ ⟨2013, 8, 3⟩ := by
  decide

end Mod09ga
